import Mathlib

/-!
# Currency normalization & reporting engine — formal model

A shallow embedding, in Lean 4 over `ℚ`, of the currency conversion and
statistics aggregation core of the repository:

* the `exchange_rates` table and its upsert query
  (`db/queries/exchange_rates.sql`, migration
  `20251026165939_create_exchange_rates_table.sql`);
* `ExchangeRateService.GetExchangeRate`, `UpdateAllRates` and
  `ConvertAmount` (`internal/services`, `part_000`);
* the aggregation passes of `GetDashboardStats`, `GetInvoiceStats`
  (`internal/handlers`, `part_003`) and `getFilteredTimeEntriesWithStats`
  (`internal/handlers/time_entry.go`), which all share one
  per-currency-multiplier caching loop.

Go `float64` amounts and rates are modelled as rationals (`ℚ`); Go's
`(value, error)` multi-returns are modelled as `value × Option error`
pairs.  The `DECIMAL(20,10)` rate column is modelled as a `ℚ` field
(the Go side serializes rates with `%.10f`, matching the column's ten
fractional digits; no claim below probes digits beyond that precision,
so the serialize/parse round-trip is modelled as the identity on the
stored rational).  Database timestamps (`NOW()`) are modelled as a `ℕ`
clock value passed in explicitly.
-/

namespace Facturme

/-- A row of the `exchange_rates` table: `base_currency`,
`target_currency`, `rate DECIMAL(20,10)`, `updated_at`.  The `id SERIAL`
column is not modelled (no claim mentions it). -/
structure ExchangeRateRow where
  base_currency : String
  target_currency : String
  rate : ℚ
  updated_at : ℕ
  deriving Repr, DecidableEq

/-- The `exchange_rates` table: a sequence of rows. -/
abbrev RateTable := List ExchangeRateRow

/-- `WHERE base_currency = $1 AND target_currency = $2` as a row test. -/
def rowMatches (b t : String) (r : ExchangeRateRow) : Bool :=
  b == r.base_currency && t == r.target_currency

/-- The sqlc query `UpsertExchangeRate`:
`INSERT ... ON CONFLICT (base_currency, target_currency) DO UPDATE SET
rate = $3, updated_at = NOW()`.  If a row for the pair exists it is
overwritten in place; otherwise a new row is appended. -/
def UpsertExchangeRate (tbl : RateTable) (b t : String) (rate : ℚ)
    (now : ℕ) : RateTable :=
  if tbl.any (rowMatches b t) then
    tbl.map (fun r =>
      if rowMatches b t r then ⟨b, t, rate, now⟩ else r)
  else
    tbl ++ [⟨b, t, rate, now⟩]

/-- The sqlc query `GetExchangeRate` (`:one`): the first row matching
the pair, or `none` (Go's `sql.ErrNoRows`). -/
def GetExchangeRateRow (tbl : RateTable) (b t : String) :
    Option ExchangeRateRow :=
  tbl.find? (rowMatches b t)

/-- Table invariant from the migration's
`UNIQUE(base_currency, target_currency)`: at most one row per pair. -/
def pairUnique (tbl : RateTable) : Prop :=
  (tbl.map (fun r => (r.base_currency, r.target_currency))).Nodup

/-- Outcome of the database lookup behind
`queries.GetExchangeRate` as the service sees it:
a row whose `rate` column parses to a rational (`ok (some q)`), a row
whose stored text fails `strconv.ParseFloat` (`ok none`),
`sql.ErrNoRows` (`noRows`), or any other database error
(`storageFailure`). -/
inductive DbResult where
  | ok (rate : Option ℚ)
  | noRows
  | storageFailure
  deriving Repr, DecidableEq

/-- The database as the exchange-rate service sees it: a lookup from a
(base, target) pair to a `DbResult`. -/
abbrev Db := String → String → DbResult

/-- A healthy database backed by a concrete `exchange_rates` table:
every stored rate is a parsable decimal and no query fails. -/
def tableDb (tbl : RateTable) : Db := fun b t =>
  match GetExchangeRateRow tbl b t with
  | some row => .ok (some row.rate)
  | none => .noRows

/-- Errors returned by `GetExchangeRate` / `ConvertAmount`:
`parseFailed` = "failed to parse exchange rate",
`notAvailable` = "exchange rate not available, please run update job",
`queryFailed` = "failed to query exchange rate". -/
inductive RateErr where
  | parseFailed
  | notAvailable
  | queryFailed
  deriving Repr, DecidableEq

/-- `ExchangeRateService.GetExchangeRate` (part_000 lines 40–67):
identity 1.0 when `baseCurrency == targetCurrency` (no store lookup);
otherwise look the pair up, parse the stored rate, and map
`sql.ErrNoRows` / other errors to the service's errors.  Go's
`(float64, error)` return is the pair `ℚ × Option RateErr`
(`0` alongside every error, as in the source). -/
def GetExchangeRate (db : Db) (baseCurrency targetCurrency : String) :
    ℚ × Option RateErr :=
  if baseCurrency == targetCurrency then
    (1, none)
  else
    match db baseCurrency targetCurrency with
    | .ok (some rate) => (rate, none)
    | .ok none => (0, some .parseFailed)
    | .noRows => (0, some .notAvailable)
    | .storageFailure => (0, some .queryFailed)

/-- `ExchangeRateService.ConvertAmount` (part_000 lines 128–148):
identity when `fromCurrency == toCurrency`; otherwise
`rate = GetExchangeRate("USD", toCurrency)`,
`fromRate = GetExchangeRate("USD", fromCurrency)`, each error returned
immediately with amount 0, and on success
`(amount / fromRate) * rate`. -/
def ConvertAmount (db : Db) (amount : ℚ)
    (fromCurrency toCurrency : String) : ℚ × Option RateErr :=
  if fromCurrency == toCurrency then
    (amount, none)
  else
    match GetExchangeRate db "USD" toCurrency with
    | (_, some e) => (0, some e)
    | (rate, none) =>
      match GetExchangeRate db "USD" fromCurrency with
      | (_, some e) => (0, some e)
      | (fromRate, none) => (amount / fromRate * rate, none)

/-- The spec's bridge composition `convert(convert(a, x, "USD"), "USD", y)`
(spec §8, "Bridge consistency"), written from the spec's words for
comparison with `ConvertAmount`: run the inner conversion to USD and, if
it succeeded, feed its value to the outer conversion; an inner failure is
the composite's failure. -/
def bridgeConvert (db : Db) (a : ℚ) (x y : String) : ℚ × Option RateErr :=
  match ConvertAmount db a x "USD" with
  | (u, none) => ConvertAmount db u "USD" y
  | (u, some e) => (u, some e)

/-- `GetExchangeRate` on equal currencies is the identity rate with no
lookup. -/
lemma getExchangeRate_refl (db : Db) (b : String) :
    GetExchangeRate db b b = (1, none) := by
  simp [GetExchangeRate]

section ConversionClaims

/-- C3: for every amount `a` and every currency `c` (supported or not),
`ConvertAmount(a, c, c)` returns exactly `a` and never fails, for every
database whatsoever — in particular its result consults no Rate Store
lookup. -/
theorem convertAmount_identity (db : Db) (a : ℚ) (c : String) :
    ConvertAmount db a c c = (a, none) := by
  simp [ConvertAmount]

/-- C1: when both service-level rate lookups `GetExchangeRate("USD", ·)`
succeed and the currencies differ, `ConvertAmount(a, from, to)` succeeds
and returns `(a / rFrom) * rTo`. -/
theorem convertAmount_success_formula (db : Db) (a rFrom rTo : ℚ)
    (fromCurrency toCurrency : String)
    (hne : fromCurrency ≠ toCurrency)
    (hFrom : GetExchangeRate db "USD" fromCurrency = (rFrom, none))
    (hTo : GetExchangeRate db "USD" toCurrency = (rTo, none)) :
    ConvertAmount db a fromCurrency toCurrency = (a / rFrom * rTo, none) := by
  simp [ConvertAmount, hne, hFrom, hTo]

/-- The Rate Store of the spec's first conversion scenario:
`USD→EUR = 0.92`, `USD→USD = 1.0`. -/
def scenarioTable : RateTable :=
  [⟨"USD", "EUR", 92/100, 0⟩, ⟨"USD", "USD", 1, 0⟩]

/-- C1 witness, the spec's scenario: amount 100, EUR→USD with stored
`USD→EUR = 0.92` and `USD→USD = 1.0` gives `100 / 0.92 * 1.0 = 2500/23
≈ 108.70`. -/
theorem convertAmount_success_formula_witness :
    ConvertAmount (tableDb scenarioTable) 100 "EUR" "USD" =
      (2500/23, none) := by
  have h := convertAmount_success_formula (tableDb scenarioTable)
    100 (92/100) 1 "EUR" "USD" (by decide) rfl rfl
  rw [h]
  norm_num [Prod.ext_iff]

/-- C5: `ConvertAmount` fails exactly when the currencies differ and at
least one of the two service-level lookups `GetExchangeRate("USD", to)`,
`GetExchangeRate("USD", from)` fails (absent row, storage failure, or
unparsable stored rate), and on failure the returned amount is 0
alongside the error. -/
theorem convertAmount_error_iff (db : Db) (a : ℚ)
    (fromCurrency toCurrency : String) :
    ((ConvertAmount db a fromCurrency toCurrency).2.isSome ↔
      (fromCurrency ≠ toCurrency ∧
        ((GetExchangeRate db "USD" toCurrency).2.isSome ∨
          (GetExchangeRate db "USD" fromCurrency).2.isSome)))
    ∧ ((ConvertAmount db a fromCurrency toCurrency).2.isSome →
        (ConvertAmount db a fromCurrency toCurrency).1 = 0) := by
  by_cases hft : fromCurrency = toCurrency
  · subst hft
    simp [ConvertAmount]
  · rcases h1 : GetExchangeRate db "USD" toCurrency with ⟨v1, e1⟩
    rcases h2 : GetExchangeRate db "USD" fromCurrency with ⟨v2, e2⟩
    cases e1 <;> cases e2 <;> simp [ConvertAmount, hft, h1, h2]

/-- A database in which every lookup reports `sql.ErrNoRows`
(the Rate Store before any refresh). -/
def emptyDb : Db := tableDb []

/-- C5 witness: on the empty store, converting 7 EUR→USD fails (the EUR
rate lookup fails), and the returned amount is 0. -/
theorem convertAmount_error_iff_witness :
    (ConvertAmount emptyDb 7 "EUR" "USD").2.isSome
    ∧ (ConvertAmount emptyDb 7 "EUR" "USD").1 = 0 := by
  have h := convertAmount_error_iff emptyDb 7 "EUR" "USD"
  have hfail : (ConvertAmount emptyDb 7 "EUR" "USD").2.isSome :=
    h.1.mpr ⟨by decide, Or.inr (by decide)⟩
  exact ⟨hfail, h.2 hfail⟩

/-- C4 counterexample: with the empty Rate Store and `x = y = "EUR"`,
the direct call succeeds (identity shortcut, no lookup) while the
USD-bridge composition fails on the missing USD→EUR row, so the two do
not have the same success/failure outcome — a purely structural
divergence, independent of the arithmetic model. -/
theorem convertAmount_bridge_cex :
    (ConvertAmount emptyDb 100 "EUR" "EUR").2 = none
    ∧ (bridgeConvert emptyDb 100 "EUR" "EUR").2.isSome := by
  constructor
  · simp [ConvertAmount]
  · simp [bridgeConvert, ConvertAmount, GetExchangeRate, emptyDb,
      tableDb, GetExchangeRateRow, List.find?]

/-- C4 amended: `ConvertAmount(a, x, y)` and the USD-bridge composition
`ConvertAmount(ConvertAmount(a, x, "USD"), "USD", y)` have the same
success/failure outcome provided that when `x = y` either `x = "USD"`
or the rate lookup for `x` succeeds; and on success their results are
exactly equal whenever `x ≠ y` or `x = "USD"` — in those cases the two
computations differ only by multiplications and divisions by the
USD→USD identity rate 1.0, which are exact in the program's float64 as
they are here.  When `x = y ≠ "USD"`, a missing rate makes the direct
call succeed while the composition fails (the counterexample), and with
a stored rate the composition computes `(a/r)*r` — the spec's
round-trip expression, which float64 returns only approximately — so no
exact value equality is asserted there. -/
theorem convertAmount_bridge_amended (db : Db) (a : ℚ) (x y : String)
    (h : x = y → x = "USD" ∨
      ∃ r, GetExchangeRate db "USD" x = (r, none)) :
    ((bridgeConvert db a x y).2.isSome ↔
      (ConvertAmount db a x y).2.isSome)
    ∧ (x ≠ y ∨ x = "USD" →
        (ConvertAmount db a x y).2 = none →
        (bridgeConvert db a x y).1 = (ConvertAmount db a x y).1) := by
  by_cases hxy : x = y
  · subst hxy
    rcases h rfl with hx | ⟨r, hgr⟩
    · subst hx
      simp [bridgeConvert, ConvertAmount]
    · by_cases hxu : x = "USD"
      · subst hxu
        simp [bridgeConvert, ConvertAmount]
      · have hd : ConvertAmount db a x x = (a, none) := by
          simp [ConvertAmount]
        have hs1 : ConvertAmount db a x "USD" = (a / r, none) := by
          simp [ConvertAmount, hxu, hgr, getExchangeRate_refl]
        have hs2 : ConvertAmount db (a / r) "USD" x = (a / r * r, none) := by
          simp [ConvertAmount, Ne.symm hxu, hgr, getExchangeRate_refl]
        have hb : bridgeConvert db a x x = (a / r * r, none) := by
          simp [bridgeConvert, hs1, hs2]
        rw [hb, hd]
        refine ⟨by simp, fun hcase _ => ?_⟩
        rcases hcase with hne | hu
        · exact absurd rfl hne
        · exact absurd hu hxu
  · by_cases hxu : x = "USD"
    · subst hxu
      simp [bridgeConvert, ConvertAmount]
    · by_cases hyu : y = "USD"
      · subst hyu
        rcases hgx : GetExchangeRate db "USD" x with ⟨vx, ex⟩
        cases ex <;>
          simp [bridgeConvert, ConvertAmount, hxy, hxu, hgx,
            getExchangeRate_refl]
      · rcases hgx : GetExchangeRate db "USD" x with ⟨vx, ex⟩
        rcases hgy : GetExchangeRate db "USD" y with ⟨vy, ey⟩
        cases ex <;> cases ey <;>
          simp [bridgeConvert, ConvertAmount, hxy, hxu, hyu,
            Ne.symm hxu, Ne.symm hyu, hgx, hgy, getExchangeRate_refl]

/-- C4 amended witness: with stored `USD→EUR = 0.92` and
`USD→USD = 1.0`, converting 100 EUR→USD directly and through the bridge
agree: both succeed and, since EUR ≠ USD, the results are exactly
equal. -/
theorem convertAmount_bridge_amended_witness :
    ((bridgeConvert (tableDb scenarioTable) 100 "EUR" "USD").2.isSome ↔
      (ConvertAmount (tableDb scenarioTable) 100 "EUR" "USD").2.isSome)
    ∧ ("EUR" ≠ "USD" ∨ "EUR" = "USD" →
        (ConvertAmount (tableDb scenarioTable) 100 "EUR" "USD").2 = none →
        (bridgeConvert (tableDb scenarioTable) 100 "EUR" "USD").1 =
          (ConvertAmount (tableDb scenarioTable) 100 "EUR" "USD").1) :=
  convertAmount_bridge_amended (tableDb scenarioTable) 100 "EUR" "USD"
    (fun hcontra => absurd hcontra (by decide))

end ConversionClaims

section StoreLemmas

/-- The freshly written row matches its own pair. -/
lemma rowMatches_self (b t : String) (r : ℚ) (now : ℕ) :
    rowMatches b t ⟨b, t, r, now⟩ = true := by
  simp [rowMatches]

/-- A row for a different pair does not match. -/
lemma rowMatches_ne (b t b' t' : String) (r : ℚ) (now : ℕ)
    (h : b' ≠ b ∨ t' ≠ t) :
    rowMatches b' t' (⟨b, t, r, now⟩ : ExchangeRateRow) = false := by
  rcases h with h | h <;> simp [rowMatches, h]

/-- A `Bool` that is not `true` is `false`. -/
lemma bool_eq_false {b : Bool} (h : ¬ b = true) : b = false := by
  cases b
  · rfl
  · exact absurd rfl h

/-- `rowMatches` unfolded to its two component equations. -/
lemma rowMatches_true_iff (b t : String) (x : ExchangeRateRow) :
    rowMatches b t x = true ↔
      b = x.base_currency ∧ t = x.target_currency := by
  simp [rowMatches]

/-- Upsert keeps the pair of every row: the exists-branch rewrites rows
in place without changing their key pair. -/
lemma pairUnique_upsert {tbl : RateTable} (b t : String) (r : ℚ)
    (now : ℕ) (h : pairUnique tbl) :
    pairUnique (UpsertExchangeRate tbl b t r now) := by
  unfold UpsertExchangeRate
  by_cases hany : tbl.any (rowMatches b t) = true
  · rw [if_pos hany]
    unfold pairUnique at h ⊢
    have hmap : (tbl.map (fun x =>
        if rowMatches b t x then ⟨b, t, r, now⟩ else x)).map
          (fun x => (x.base_currency, x.target_currency)) =
        tbl.map (fun x => (x.base_currency, x.target_currency)) := by
      rw [List.map_map]
      apply List.map_congr_left
      intro x _
      by_cases hm : rowMatches b t x = true
      · obtain ⟨hb, ht⟩ := (rowMatches_true_iff b t x).mp hm
        simp only [Function.comp_apply, if_pos hm]
        rw [hb, ht]
      · simp only [Function.comp_apply, if_neg hm]
    rw [hmap]
    exact h
  · rw [if_neg hany]
    unfold pairUnique at h ⊢
    rw [List.map_append, List.nodup_append]
    refine ⟨h, by simp, ?_⟩
    intro p hp
    simp only [List.mem_map] at hp
    obtain ⟨x, hx, hpx⟩ := hp
    have hxm : rowMatches b t x = false :=
      bool_eq_false (fun htr =>
        hany (List.any_eq_true.mpr ⟨x, hx, htr⟩))
    simp only [List.map_cons, List.map_nil, List.mem_singleton]
    intro hpy
    rw [← hpx] at hpy
    have hbx : x.base_currency = b := congrArg Prod.fst hpy
    have htx : x.target_currency = t := congrArg Prod.snd hpy
    rw [(rowMatches_true_iff b t x).mpr ⟨hbx.symm, htx.symm⟩] at hxm
    exact Bool.noConfusion hxm

/-- Rewriting matching rows and filtering for the pair yields exactly
the new row, when the table has unique pairs and some row matches. -/
lemma filter_mapReplace (b t : String) (r : ℚ) (now : ℕ) :
    ∀ tbl : RateTable, pairUnique tbl →
      tbl.any (rowMatches b t) = true →
      (tbl.map (fun x =>
          if rowMatches b t x then ⟨b, t, r, now⟩ else x)).filter
        (rowMatches b t) = [⟨b, t, r, now⟩]
  | [], _, hany => by simp at hany
  | hd :: tl, hu, hany => by
    have hu' : pairUnique tl := by
      unfold pairUnique at hu ⊢
      exact (List.nodup_cons.mp hu).2
    by_cases hm : rowMatches b t hd = true
    · obtain ⟨hb, ht⟩ := (rowMatches_true_iff b t hd).mp hm
      have htl : ∀ x ∈ tl, rowMatches b t x = false := by
        intro x hx
        refine bool_eq_false (fun htr => ?_)
        obtain ⟨hbx, htx⟩ := (rowMatches_true_iff b t x).mp htr
        unfold pairUnique at hu
        exact (List.nodup_cons.mp hu).1 (List.mem_map.mpr
          ⟨x, hx, by rw [← hbx, ← htx, hb, ht]⟩)
      have hnil : (tl.map (fun x =>
          if rowMatches b t x then ⟨b, t, r, now⟩ else x)).filter
            (rowMatches b t) = [] := by
        rw [List.filter_eq_nil_iff]
        intro x hx
        rw [List.mem_map] at hx
        obtain ⟨y, hy, hyx⟩ := hx
        rw [if_neg (by rw [htl y hy]; exact Bool.false_ne_true)] at hyx
        subst hyx
        rw [htl y hy]
        exact Bool.false_ne_true
      simp [hm, rowMatches_self, hnil]
    · have hm' : rowMatches b t hd = false := bool_eq_false hm
      have hany' : tl.any (rowMatches b t) = true := by
        rcases List.any_eq_true.mp hany with ⟨x, hx, hxm⟩
        rcases List.mem_cons.mp hx with hx1 | hx2
        · subst hx1; exact absurd hxm hm
        · exact List.any_eq_true.mpr ⟨x, hx2, hxm⟩
      have ih := filter_mapReplace b t r now tl hu' hany'
      simpa [hm'] using ih

/-- `UpsertExchangeRate` then filtering for the pair yields exactly the
new row, on a table with unique pairs. -/
lemma filter_upsert (tbl : RateTable) (b t : String) (r : ℚ) (now : ℕ)
    (h : pairUnique tbl) :
    (UpsertExchangeRate tbl b t r now).filter (rowMatches b t) =
      [⟨b, t, r, now⟩] := by
  unfold UpsertExchangeRate
  by_cases hany : tbl.any (rowMatches b t) = true
  · rw [if_pos hany]
    exact filter_mapReplace b t r now tbl h hany
  · rw [if_neg hany]
    rw [List.filter_append]
    have h1 : tbl.filter (rowMatches b t) = [] := by
      rw [List.filter_eq_nil_iff]
      intro x hx
      intro hm
      exact hany (List.any_eq_true.mpr ⟨x, hx, hm⟩)
    rw [h1]
    simp [rowMatches_self]

end StoreLemmas

section StoreClaims

/-- C8: on a Rate Store with unique (base, target) pairs, upsert
preserves uniqueness and is last-write-wins: after
`upsert("USD","EUR",r1,t1)` then `upsert("USD","EUR",r2,t2)` the table
still has unique pairs and holds exactly one row for the pair —
`rate = r2`, `updated_at = t2`. -/
theorem upsert_last_write_wins (tbl : RateTable) (r1 r2 : ℚ)
    (t1 t2 : ℕ) (h : pairUnique tbl) :
    pairUnique
      (UpsertExchangeRate
        (UpsertExchangeRate tbl "USD" "EUR" r1 t1) "USD" "EUR" r2 t2)
    ∧ (UpsertExchangeRate
        (UpsertExchangeRate tbl "USD" "EUR" r1 t1) "USD" "EUR" r2 t2).filter
          (rowMatches "USD" "EUR") = [⟨"USD", "EUR", r2, t2⟩] := by
  have h1 := pairUnique_upsert "USD" "EUR" r1 t1 h
  exact ⟨pairUnique_upsert "USD" "EUR" r2 t2 h1,
    filter_upsert _ "USD" "EUR" r2 t2 h1⟩

/-- C8 witness: starting from the empty table, upserting
`("USD","EUR",0.92,1)` then `("USD","EUR",0.95,2)` leaves a table with
unique pairs whose only row for the pair is `("USD","EUR",0.95,2)`. -/
theorem upsert_last_write_wins_witness :
    pairUnique
      (UpsertExchangeRate
        (UpsertExchangeRate ([] : RateTable) "USD" "EUR" (92/100) 1)
        "USD" "EUR" (95/100) 2)
    ∧ (UpsertExchangeRate
        (UpsertExchangeRate ([] : RateTable) "USD" "EUR" (92/100) 1)
        "USD" "EUR" (95/100) 2).filter (rowMatches "USD" "EUR") =
          [⟨"USD", "EUR", 95/100, 2⟩] :=
  upsert_last_write_wins [] (92/100) (95/100) 1 2 (by simp [pairUnique])

end StoreClaims

section RefresherDefs

/-- `SupportedCurrencies` (part_000 lines 14–19). -/
def SupportedCurrencies : List String :=
  ["USD", "EUR", "GBP", "JPY", "AUD",
   "CAD", "CHF", "CNY", "SEK", "NZD",
   "IDR", "SGD", "INR"]

/-- The decoded provider body `map[string]float64`, as an association
list. -/
abbrev RatesMap := List (String × ℚ)

/-- Go map read `rates[k]` with its `exists` flag folded into
`Option`. -/
def mapLookup (m : RatesMap) (k : String) : Option ℚ :=
  (m.find? (fun p => p.1 == k)).map Prod.snd

/-- Go map write `rates[k] = v`: overwrite the key if present,
otherwise add it. -/
def mapInsert (m : RatesMap) (k : String) (v : ℚ) : RatesMap :=
  if m.any (fun p => p.1 == k) then
    m.map (fun p => if p.1 == k then (k, v) else p)
  else
    m ++ [(k, v)]

/-- Errors of `UpdateAllRates`: "failed to fetch exchange rates",
"API returned status %d", "failed to decode API response",
"failed to update rate for %s". -/
inductive UpdateErr where
  | fetchFailed
  | badStatus (code : ℕ)
  | decodeFailed
  | upsertFailed (currency : String)
  deriving Repr, DecidableEq

/-- Outcome of the outbound `http.Get`: a transport error, or a
response with a status code and a body that either decodes to a rates
mapping or is malformed (`none`). -/
inductive FetchOutcome where
  | failed
  | status (code : ℕ) (body : Option RatesMap)
  deriving Repr, DecidableEq

/-- The upsert loop of `UpdateAllRates` (part_000 lines 102–121) over
the supported-currency list: a currency absent from the mapping is
skipped; one present is upserted.  `budget` models the context
deadline: `none` means the context is never cancelled, `some k` means
the database accepts `k` more upserts before the cancelled context
makes `queries.UpsertExchangeRate` fail; on a failed upsert the Go code
returns the error immediately, keeping the upserts already applied. -/
def runRateUpserts (rates : RatesMap) (now : ℕ) :
    List String → RateTable → Option ℕ → RateTable × Option UpdateErr
  | [], tbl, _ => (tbl, none)
  | c :: rest, tbl, budget =>
    match mapLookup rates c with
    | none => runRateUpserts rates now rest tbl budget
    | some r =>
      match budget with
      | some 0 => (tbl, some (UpdateErr.upsertFailed c))
      | some (k + 1) =>
          runRateUpserts rates now rest
            (UpsertExchangeRate tbl "USD" c r now) (some k)
      | none =>
          runRateUpserts rates now rest
            (UpsertExchangeRate tbl "USD" c r now) none

/-- `ExchangeRateService.UpdateAllRates` (part_000 lines 70–125):
abort on transport error, on a non-200 status, or on an undecodable
body, leaving the table untouched; otherwise inject `rates["USD"] = 1.0`
and run the upsert loop over `SupportedCurrencies`.  The function
returns the table state after the cycle together with the optional
error (`updatedCount` is only logged and is not modelled). -/
def UpdateAllRates (resp : FetchOutcome) (budget : Option ℕ) (now : ℕ)
    (tbl : RateTable) : RateTable × Option UpdateErr :=
  match resp with
  | .failed => (tbl, some .fetchFailed)
  | .status code body =>
    if code ≠ 200 then (tbl, some (.badStatus code))
    else
      match body with
      | none => (tbl, some .decodeFailed)
      | some rates =>
          runRateUpserts (mapInsert rates "USD" 1) now
            SupportedCurrencies tbl budget

end RefresherDefs

section RefresherLemmas

/-- A row matching one pair cannot match a different pair. -/
lemma rowMatches_ne_row {b t b' t' : String} {x : ExchangeRateRow}
    (hne : b' ≠ b ∨ t' ≠ t) (hx : rowMatches b t x = true) :
    rowMatches b' t' x = false := by
  obtain ⟨hb, ht⟩ := (rowMatches_true_iff b t x).mp hx
  refine bool_eq_false (fun htr => ?_)
  obtain ⟨hb', ht'⟩ := (rowMatches_true_iff b' t' x).mp htr
  rcases hne with h | h
  · exact h (hb'.trans hb.symm)
  · exact h (ht'.trans ht.symm)

/-- `find?` for the pair over the rewrite-in-place branch of upsert
finds the new row when some row matched. -/
lemma find?_mapReplace (b t : String) (r : ℚ) (now : ℕ) :
    ∀ tbl : RateTable, tbl.any (rowMatches b t) = true →
      (tbl.map (fun x =>
          if rowMatches b t x then ⟨b, t, r, now⟩ else x)).find?
        (rowMatches b t) = some ⟨b, t, r, now⟩
  | [], hany => by simp at hany
  | hd :: tl, hany => by
    by_cases hm : rowMatches b t hd = true
    · simp only [List.map_cons, if_pos hm]
      rw [List.find?_cons_of_pos _ (rowMatches_self b t r now)]
    · have hm' : rowMatches b t hd = false := bool_eq_false hm
      have hany' : tl.any (rowMatches b t) = true := by
        rcases List.any_eq_true.mp hany with ⟨x, hx, hxm⟩
        rcases List.mem_cons.mp hx with hx1 | hx2
        · subst hx1; exact absurd hxm hm
        · exact List.any_eq_true.mpr ⟨x, hx2, hxm⟩
      simp only [List.map_cons, if_neg hm]
      rw [List.find?_cons_of_neg _ hm]
      exact find?_mapReplace b t r now tl hany'

/-- `find?` for the pair over the append branch of upsert finds the
appended row when no existing row matches. -/
lemma find?_appendNew (b t : String) (r : ℚ) (now : ℕ) :
    ∀ tbl : RateTable, (∀ x ∈ tbl, rowMatches b t x = false) →
      (tbl ++ [(⟨b, t, r, now⟩ : ExchangeRateRow)]).find?
        (rowMatches b t) = some ⟨b, t, r, now⟩
  | [], _ => by
    rw [List.nil_append,
      List.find?_cons_of_pos _ (rowMatches_self b t r now)]
  | hd :: tl, hall => by
    rw [List.cons_append, List.find?_cons_of_neg _ (by
      simp [hall hd (List.mem_cons_self hd tl)])]
    exact find?_appendNew b t r now tl
      (fun x hx => hall x (List.mem_cons_of_mem hd hx))

/-- After an upsert, looking the same pair up finds the new row. -/
lemma getRow_upsert_self (b t : String) (r : ℚ) (now : ℕ)
    (tbl : RateTable) :
    GetExchangeRateRow (UpsertExchangeRate tbl b t r now) b t =
      some ⟨b, t, r, now⟩ := by
  unfold UpsertExchangeRate GetExchangeRateRow
  by_cases hany : tbl.any (rowMatches b t) = true
  · rw [if_pos hany]
    exact find?_mapReplace b t r now tbl hany
  · rw [if_neg hany]
    exact find?_appendNew b t r now tbl
      (fun x hx => bool_eq_false
        (fun htr => hany (List.any_eq_true.mpr ⟨x, hx, htr⟩)))

/-- The rewrite-in-place branch of upsert does not disturb `find?` for
any other pair. -/
lemma find?_mapReplace_ne (b t b' t' : String) (r : ℚ) (now : ℕ)
    (hne : b' ≠ b ∨ t' ≠ t) :
    ∀ tbl : RateTable,
      (tbl.map (fun x =>
          if rowMatches b t x then ⟨b, t, r, now⟩ else x)).find?
        (rowMatches b' t') = tbl.find? (rowMatches b' t')
  | [] => rfl
  | hd :: tl => by
    by_cases hm : rowMatches b t hd = true
    · have h1 : rowMatches b' t' hd = false := rowMatches_ne_row hne hm
      have h2 : rowMatches b' t' (⟨b, t, r, now⟩ : ExchangeRateRow) =
          false := rowMatches_ne b t b' t' r now hne
      simp only [List.map_cons, if_pos hm]
      rw [List.find?_cons_of_neg _ (by simp [h2]),
        List.find?_cons_of_neg _ (by simp [h1])]
      exact find?_mapReplace_ne b t b' t' r now hne tl
    · simp only [List.map_cons, if_neg hm]
      by_cases hp : rowMatches b' t' hd = true
      · rw [List.find?_cons_of_pos _ hp, List.find?_cons_of_pos _ hp]
      · rw [List.find?_cons_of_neg _ hp, List.find?_cons_of_neg _ hp]
        exact find?_mapReplace_ne b t b' t' r now hne tl

/-- The append branch of upsert does not disturb `find?` for any other
pair. -/
lemma find?_appendNew_ne (b t b' t' : String) (r : ℚ) (now : ℕ)
    (hne : b' ≠ b ∨ t' ≠ t) :
    ∀ tbl : RateTable,
      (tbl ++ [(⟨b, t, r, now⟩ : ExchangeRateRow)]).find?
        (rowMatches b' t') = tbl.find? (rowMatches b' t')
  | [] => by
    rw [List.nil_append, List.find?_nil,
      List.find?_cons_of_neg _ (by
        simp [rowMatches_ne b t b' t' r now hne]),
      List.find?_nil]
  | hd :: tl => by
    by_cases hp : rowMatches b' t' hd = true
    · rw [List.cons_append, List.find?_cons_of_pos _ hp,
        List.find?_cons_of_pos _ hp]
    · rw [List.cons_append, List.find?_cons_of_neg _ hp,
        List.find?_cons_of_neg _ hp]
      exact find?_appendNew_ne b t b' t' r now hne tl

/-- After an upsert, every other pair's lookup is unchanged. -/
lemma getRow_upsert_ne (b t b' t' : String) (r : ℚ) (now : ℕ)
    (hne : b' ≠ b ∨ t' ≠ t) (tbl : RateTable) :
    GetExchangeRateRow (UpsertExchangeRate tbl b t r now) b' t' =
      GetExchangeRateRow tbl b' t' := by
  unfold UpsertExchangeRate GetExchangeRateRow
  by_cases hany : tbl.any (rowMatches b t) = true
  · rw [if_pos hany]
    exact find?_mapReplace_ne b t b' t' r now hne tbl
  · rw [if_neg hany]
    exact find?_appendNew_ne b t b' t' r now hne tbl

/-- Currencies not in the processed list keep their lookup result
through the whole upsert loop. -/
lemma runRateUpserts_not_mem (rates : RatesMap) (now : ℕ) (c : String) :
    ∀ (L : List String) (tbl : RateTable), c ∉ L →
      GetExchangeRateRow (runRateUpserts rates now L tbl none).1
          "USD" c =
        GetExchangeRateRow tbl "USD" c
  | [], tbl, _ => rfl
  | d :: rest, tbl, hc => by
    have hcd : c ≠ d := fun h => hc (h ▸ List.mem_cons_self d rest)
    have hcr : c ∉ rest := fun h => hc (List.mem_cons_of_mem d h)
    cases hl : mapLookup rates d with
    | none =>
      simpa [runRateUpserts, hl] using
        runRateUpserts_not_mem rates now c rest tbl hcr
    | some r =>
      have hstep : runRateUpserts rates now (d :: rest) tbl none =
          runRateUpserts rates now rest
            (UpsertExchangeRate tbl "USD" d r now) none := by
        simp [runRateUpserts, hl]
      rw [hstep, runRateUpserts_not_mem rates now c rest _ hcr]
      exact getRow_upsert_ne "USD" d "USD" c r now (Or.inr hcd) tbl

/-- Specification of the upsert loop with no cancellation: it never
fails; every listed currency found in the mapping ends with exactly the
mapping's row, and every listed currency absent from the mapping keeps
its pre-cycle lookup. -/
lemma runRateUpserts_spec (rates : RatesMap) (now : ℕ) :
    ∀ (L : List String), L.Nodup → ∀ tbl : RateTable,
      (runRateUpserts rates now L tbl none).2 = none ∧
      ∀ c ∈ L,
        (∀ r, mapLookup rates c = some r →
          GetExchangeRateRow (runRateUpserts rates now L tbl none).1
            "USD" c = some ⟨"USD", c, r, now⟩) ∧
        (mapLookup rates c = none →
          GetExchangeRateRow (runRateUpserts rates now L tbl none).1
            "USD" c = GetExchangeRateRow tbl "USD" c)
  | [], _, tbl => ⟨rfl, by simp⟩
  | d :: rest, hnd, tbl => by
    have hdrest : d ∉ rest := (List.nodup_cons.mp hnd).1
    have hrest : rest.Nodup := (List.nodup_cons.mp hnd).2
    cases hl : mapLookup rates d with
    | none =>
      have hstep : runRateUpserts rates now (d :: rest) tbl none =
          runRateUpserts rates now rest tbl none := by
        simp [runRateUpserts, hl]
      have ih := runRateUpserts_spec rates now rest hrest tbl
      rw [hstep]
      refine ⟨ih.1, ?_⟩
      intro c hc
      rcases List.mem_cons.mp hc with hc1 | hc2
      · subst hc1
        refine ⟨fun r hr => absurd (hl ▸ hr) (by simp), fun _ => ?_⟩
        exact runRateUpserts_not_mem rates now c rest tbl hdrest
      · exact ih.2 c hc2
    | some r =>
      have hstep : runRateUpserts rates now (d :: rest) tbl none =
          runRateUpserts rates now rest
            (UpsertExchangeRate tbl "USD" d r now) none := by
        simp [runRateUpserts, hl]
      have ih := runRateUpserts_spec rates now rest hrest
        (UpsertExchangeRate tbl "USD" d r now)
      rw [hstep]
      refine ⟨ih.1, ?_⟩
      intro c hc
      rcases List.mem_cons.mp hc with hc1 | hc2
      · subst hc1
        constructor
        · intro r' hr'
          rw [hl] at hr'
          obtain rfl : r = r' := Option.some.inj hr'
          rw [runRateUpserts_not_mem rates now c rest _ hdrest]
          exact getRow_upsert_self "USD" c r now tbl
        · intro hnone
          rw [hl] at hnone
          exact absurd hnone (by simp)
      · have hcd : c ≠ d := fun h => hdrest (h ▸ hc2)
        refine ⟨(ih.2 c hc2).1, fun hnone => ?_⟩
        rw [(ih.2 c hc2).2 hnone]
        exact getRow_upsert_ne "USD" d "USD" c r now (Or.inr hcd) tbl

end RefresherLemmas

section RefresherClaims

/-- C6: a refresh cycle whose response parses (and whose context is
never cancelled) injects `USD ↦ 1.0` into the mapping and then, for each
supported currency, upserts `("USD", code, rate, now)` when the injected
mapping contains the code — without failing the cycle — and leaves the
previously stored row untouched when it does not. -/
theorem updateAllRates_partial_containment (rates : RatesMap)
    (now : ℕ) (tbl : RateTable) :
    (UpdateAllRates (.status 200 (some rates)) none now tbl).2 = none
    ∧ ∀ c ∈ SupportedCurrencies,
        (∀ r, mapLookup (mapInsert rates "USD" 1) c = some r →
          GetExchangeRateRow
            (UpdateAllRates (.status 200 (some rates)) none now tbl).1
            "USD" c = some ⟨"USD", c, r, now⟩)
        ∧ (mapLookup (mapInsert rates "USD" 1) c = none →
          GetExchangeRateRow
            (UpdateAllRates (.status 200 (some rates)) none now tbl).1
            "USD" c = GetExchangeRateRow tbl "USD" c) := by
  have hrun : UpdateAllRates (.status 200 (some rates)) none now tbl =
      runRateUpserts (mapInsert rates "USD" 1) now
        SupportedCurrencies tbl none := by
    simp [UpdateAllRates]
  rw [hrun]
  exact runRateUpserts_spec (mapInsert rates "USD" 1) now
    SupportedCurrencies (by decide) tbl

/-- C6 witness: a response holding only EUR (INR absent), over a store
already holding `USD→INR = 83`: the cycle succeeds, the INR row is
untouched, and the EUR and USD rows are upserted with the cycle's
timestamp. -/
theorem updateAllRates_partial_containment_witness :
    (UpdateAllRates (.status 200 (some [("EUR", (92:ℚ)/100)])) none 2
        [⟨"USD", "INR", 83, 1⟩]).2 = none
    ∧ GetExchangeRateRow
        (UpdateAllRates (.status 200 (some [("EUR", (92:ℚ)/100)])) none 2
          [⟨"USD", "INR", 83, 1⟩]).1 "USD" "INR" =
        some ⟨"USD", "INR", 83, 1⟩
    ∧ GetExchangeRateRow
        (UpdateAllRates (.status 200 (some [("EUR", (92:ℚ)/100)])) none 2
          [⟨"USD", "INR", 83, 1⟩]).1 "USD" "EUR" =
        some ⟨"USD", "EUR", 92/100, 2⟩ := by
  have h := updateAllRates_partial_containment
    [("EUR", (92:ℚ)/100)] 2 [⟨"USD", "INR", 83, 1⟩]
  refine ⟨h.1, ?_, ?_⟩
  · exact ((h.2 "INR" (by decide)).2) rfl
  · exact ((h.2 "EUR" (by decide)).1) (92/100) rfl

/-- C7 counterexample: a cycle whose context deadline fires after one
successful upsert (response decodes, body `{EUR: 0.92}`, budget 1):
`UpdateAllRates` returns an error — the claim's first conjunct — but the
store is no longer what it was before the cycle: the USD row written by
the first upsert survives, refuting "contents are exactly what they were
before". -/
theorem updateAllRates_abort_cex :
    UpdateAllRates (.status 200 (some [("EUR", (92:ℚ)/100)])) (some 1)
        5 [] =
      ([⟨"USD", "USD", 1, 5⟩], some (.upsertFailed "EUR"))
    ∧ ([⟨"USD", "USD", 1, 5⟩] : RateTable) ≠ [] := by
  exact ⟨rfl, by simp⟩

/-- C7 amended: a refresh cycle aborted by an outbound request failure
— transport error, non-200 status, or undecodable body — returns an
error and leaves the Rate Store exactly as it was; a cycle aborted by
the context deadline (which surfaces as a failing upsert mid-loop)
returns an error but keeps the upserts already applied in that cycle. -/
theorem updateAllRates_fetch_abort (tbl : RateTable)
    (budget : Option ℕ) (now : ℕ) :
    UpdateAllRates .failed budget now tbl = (tbl, some .fetchFailed)
    ∧ (∀ code body, code ≠ 200 →
        UpdateAllRates (.status code body) budget now tbl =
          (tbl, some (.badStatus code)))
    ∧ UpdateAllRates (.status 200 none) budget now tbl =
        (tbl, some .decodeFailed) := by
  refine ⟨rfl, ?_, by simp [UpdateAllRates]⟩
  intro code body hcode
  simp [UpdateAllRates, hcode]

/-- C7 amended witness: a 503 response aborts the cycle with an error
and leaves a one-row store exactly unchanged. -/
theorem updateAllRates_fetch_abort_witness :
    UpdateAllRates (.status 503 (some [("EUR", (92:ℚ)/100)])) (some 4) 9
        [⟨"USD", "INR", 83, 1⟩] =
      ([⟨"USD", "INR", 83, 1⟩], some (.badStatus 503)) :=
  (updateAllRates_fetch_abort [⟨"USD", "INR", 83, 1⟩] (some 4) 9).2.1
    503 (some [("EUR", (92:ℚ)/100)]) (by decide)

end RefresherClaims

section AggregationDefs

/-- A client row as the stats handlers use it: id, billing currency,
and hourly rate (already parsed from its stored string; a parse failure
yields 0, as Go's ignored `ParseFloat` error does). -/
structure Client where
  id : ℤ
  currency : String
  hourlyRate : ℚ
  deriving Repr, DecidableEq

/-- A time entry as the dashboard loop uses it: client id, date
(modelled as an integer day so `Before`/`After` are `<`/`>`), and hours
(already parsed; parse failure yields 0). -/
structure TimeEntry where
  clientId : ℤ
  date : ℤ
  hours : ℚ
  deriving Repr, DecidableEq

/-- The Go `clientsMap[client.ID] = client` map build followed by a
lookup: the last client with the id wins. -/
def lookupClient (clients : List Client) (id : ℤ) : Option Client :=
  clients.foldl (fun acc c => if c.id == id then some c else acc) none

/-- The `currenciesNeeded` set of each aggregation pass: the distinct
client currencies that differ from the user's currency. -/
def currenciesNeeded (clients : List Client) (userCurrency : String) :
    List String :=
  ((clients.map Client.currency).filter
    (fun c => c ≠ userCurrency)).dedup

/-- One pass's cached multiplier for a currency:
`ConvertAmount(1.0, currency, userCurrency)` on success, `1.0` on
failure (the fallback branch of each handler's rate-fetch loop). -/
def fallbackMultiplier (db : Db) (userCurrency c : String) : ℚ :=
  match ConvertAmount db 1 c userCurrency with
  | (_, some _) => 1
  | (v, none) => v

/-- The `conversionRates` map each handler builds once per pass. -/
def conversionRates (db : Db) (clients : List Client)
    (userCurrency : String) : List (String × ℚ) :=
  (currenciesNeeded clients userCurrency).map
    (fun c => (c, fallbackMultiplier db userCurrency c))

/-- The per-item accumulation shared by the three handlers
(part_003 lines 139–147 and 640–649, time_entry.go lines 329–337):
an item in the reporting currency is added unchanged; otherwise it is
multiplied by the cached rate when present, and added unconverted when
not. -/
def aggregateTotal (rates : List (String × ℚ)) (userCurrency : String)
    (items : List (String × ℚ)) : ℚ :=
  items.foldl (fun acc item =>
    if item.1 ≠ userCurrency then
      match mapLookup rates item.1 with
      | some rate => acc + item.2 * rate
      | none => acc + item.2
    else acc + item.2) 0

end AggregationDefs

section AggregationLemmas

/-- Looking a key up in the graph of a function over a key list. -/
lemma mapLookup_graph (f : String → ℚ) :
    ∀ (L : List String) (c : String), c ∈ L →
      mapLookup (L.map (fun c => (c, f c))) c = some (f c)
  | [], c, hc => absurd hc (List.not_mem_nil c)
  | d :: rest, c, hc => by
    by_cases hdc : d = c
    · subst hdc
      unfold mapLookup
      rw [List.map_cons, List.find?_cons_of_pos _ (by simp)]
      rfl
    · have hc' : c ∈ rest := by
        rcases List.mem_cons.mp hc with h1 | h2
        · exact absurd h1.symm hdc
        · exact h2
      unfold mapLookup
      rw [List.map_cons, List.find?_cons_of_neg _ (by simp [hdc])]
      exact mapLookup_graph f rest c hc'

/-- Every currency needed by a pass is cached with its fallback
multiplier. -/
lemma conversionRates_lookup (db : Db) (clients : List Client)
    (R c : String) (hc : c ∈ currenciesNeeded clients R) :
    mapLookup (conversionRates db clients R) c =
      some (fallbackMultiplier db R c) :=
  mapLookup_graph (fallbackMultiplier db R) (currenciesNeeded clients R)
    c hc

/-- The per-item converted amount of the shared aggregation fold. -/
def itemConverted (rates : List (String × ℚ)) (R : String)
    (i : String × ℚ) : ℚ :=
  if i.1 ≠ R then
    match mapLookup rates i.1 with
    | some rate => i.2 * rate
    | none => i.2
  else i.2

/-- The aggregation fold, started anywhere, adds the per-item converted
amounts. -/
lemma aggregateTotal_go (rates : List (String × ℚ)) (R : String) :
    ∀ (items : List (String × ℚ)) (acc : ℚ),
      items.foldl (fun acc item =>
        if item.1 ≠ R then
          match mapLookup rates item.1 with
          | some rate => acc + item.2 * rate
          | none => acc + item.2
        else acc + item.2) acc =
      acc + (items.map (itemConverted rates R)).sum
  | [], acc => by simp
  | i :: rest, acc => by
    rw [List.foldl_cons, aggregateTotal_go rates R rest,
      List.map_cons, List.sum_cons]
    unfold itemConverted
    by_cases hi : i.1 ≠ R
    · rw [if_pos hi, if_pos hi]
      cases mapLookup rates i.1 <;> dsimp only <;> ring
    · rw [if_neg hi, if_neg hi]
      ring

end AggregationLemmas

section AggregationClaims

/-- C2: an aggregation pass over currency-tagged amounts whose
currencies all come from the pass's client list always yields a total:
the cached map has one entry per distinct non-reporting currency,
each being `ConvertAmount(1.0, c, R)` when it succeeds and `1.0` when it
fails, and the total is the sum over items of the amount itself when the
item is in the reporting currency and the amount times the cached
multiplier otherwise. -/
theorem aggregation_pass_total (db : Db) (clients : List Client)
    (R : String) (items : List (String × ℚ))
    (hin : ∀ i ∈ items, i.1 ∈ clients.map Client.currency) :
    ((conversionRates db clients R).map Prod.fst).Nodup
    ∧ (∀ c ∈ currenciesNeeded clients R,
        mapLookup (conversionRates db clients R) c =
          some (fallbackMultiplier db R c))
    ∧ aggregateTotal (conversionRates db clients R) R items =
        (items.map (fun i =>
          if i.1 = R then i.2 else i.2 * fallbackMultiplier db R i.1)).sum := by
  refine ⟨?_, fun c hc => conversionRates_lookup db clients R c hc, ?_⟩
  · have hkeys : (conversionRates db clients R).map Prod.fst =
        currenciesNeeded clients R := by
      unfold conversionRates
      rw [List.map_map]
      have h : List.map
          (Prod.fst ∘ fun c => (c, fallbackMultiplier db R c))
          (currenciesNeeded clients R) =
          List.map id (currenciesNeeded clients R) :=
        List.map_congr_left (fun c _ => rfl)
      rw [h, List.map_id]
    rw [hkeys]
    exact List.nodup_dedup _
  · unfold aggregateTotal
    rw [aggregateTotal_go (conversionRates db clients R) R items 0,
      zero_add]
    apply congrArg
    apply List.map_congr_left
    intro i hi
    unfold itemConverted
    by_cases hiR : i.1 = R
    · simp [hiR]
    · have hneed : i.1 ∈ currenciesNeeded clients R := by
        unfold currenciesNeeded
        rw [List.mem_dedup, List.mem_filter]
        exact ⟨hin i hi, by simp [hiR]⟩
      rw [if_pos hiR, if_neg hiR,
        conversionRates_lookup db clients R i.1 hneed]

/-- The clients of the spec's aggregation scenario: a USD client and a
EUR client. -/
def aggClients : List Client := [⟨1, "USD", 50⟩, ⟨2, "EUR", 40⟩]

/-- The items of the spec's aggregation scenario: 50 USD, 40 EUR,
10 USD. -/
def aggItems : List (String × ℚ) := [("USD", 50), ("EUR", 40), ("USD", 10)]

/-- C2 witness, the spec's scenario: 50 USD + 40 EUR + 10 USD with
reporting currency USD and stored `USD→EUR = 0.92` totals
`50 + 40/0.92 + 10 = 2380/23 ≈ 103.48`. -/
theorem aggregation_pass_total_witness :
    aggregateTotal (conversionRates (tableDb scenarioTable) aggClients
      "USD") "USD" aggItems = 2380/23 := by
  have h := (aggregation_pass_total (tableDb scenarioTable) aggClients
    "USD" aggItems (by decide)).2.2
  rw [h]
  have hm : fallbackMultiplier (tableDb scenarioTable) "USD" "EUR" =
      1 / (92/100) * 1 := rfl
  simp [aggItems, hm]
  norm_num

end AggregationClaims

section InvoiceStatsDefs

/-- An invoice as `GetInvoiceStats` consumes it: owning client id,
status string, its time entries as (hours, hourlyRate) pairs (already
parsed), and whether `GetInvoiceTimeEntries` succeeded — on failure the
handler `continue`s past the invoice entirely. -/
structure Invoice where
  clientId : ℤ
  status : String
  entries : List (ℚ × ℚ)
  entriesFetchOk : Bool
  deriving Repr, DecidableEq

/-- `invoiceTotal`: the sum of hours × hourlyRate over the invoice's
time entries. -/
def invoiceTotal (inv : Invoice) : ℚ :=
  (inv.entries.map (fun e => e.1 * e.2)).sum

/-- The per-invoice conversion of `GetInvoiceStats` (part_003 lines
630–649): the client's currency (default "USD" when the client is
missing), converted with the cached rate when one is present. -/
def invoiceConverted (rates : List (String × ℚ)) (clients : List Client)
    (R : String) (inv : Invoice) : ℚ :=
  let clientCurrency :=
    match lookupClient clients inv.clientId with
    | some c => c.currency
    | none => "USD"
  if clientCurrency ≠ R then
    match mapLookup rates clientCurrency with
    | some rate => invoiceTotal inv * rate
    | none => invoiceTotal inv
  else invoiceTotal inv

/-- The `InvoiceStatsResponse` fields computed by `GetInvoiceStats`
(`invoices`, `total_invoices`, `total_amount`, `paid_amount`,
`unpaid_amount`); the response list is abstracted to the included
invoices. -/
structure InvoiceStats where
  invoices : List Invoice
  total_invoices : ℕ
  total_amount : ℚ
  paid_amount : ℚ
  unpaid_amount : ℚ
  deriving Repr, DecidableEq

/-- One iteration of the `GetInvoiceStats` loop (part_003 lines
599–683): skip the invoice entirely if its time entries cannot be
fetched; always accumulate the converted amount into `total_amount` and
into `paid_amount`/`unpaid_amount` by status; append to the response
list only when the status filter admits the invoice. -/
def invoiceStatsStep (rates : List (String × ℚ))
    (clients : List Client) (R statusFilter : String)
    (acc : InvoiceStats) (inv : Invoice) : InvoiceStats :=
  if inv.entriesFetchOk then
    let conv := invoiceConverted rates clients R inv
    let acc1 := { acc with total_amount := acc.total_amount + conv }
    let acc2 :=
      if inv.status = "paid" then
        { acc1 with paid_amount := acc1.paid_amount + conv }
      else if inv.status = "sent" ∨ inv.status = "overdue" then
        { acc1 with unpaid_amount := acc1.unpaid_amount + conv }
      else acc1
    if statusFilter ≠ "all" ∧ inv.status ≠ statusFilter then acc2
    else { acc2 with invoices := acc2.invoices ++ [inv],
                     total_invoices := acc2.total_invoices + 1 }
  else acc

/-- `StatsHandler.GetInvoiceStats` (part_003 lines 538–694), from the
conversion-rate cache on. -/
def GetInvoiceStats (db : Db) (clients : List Client)
    (R statusFilter : String) (invoices : List Invoice) : InvoiceStats :=
  invoices.foldl
    (invoiceStatsStep (conversionRates db clients R) clients R
      statusFilter)
    ⟨[], 0, 0, 0, 0⟩

end InvoiceStatsDefs

section InvoiceStatsLemmas

/-- `total_amount` after one step, independent of the status filter. -/
lemma invoiceStatsStep_total_amount (rates : List (String × ℚ))
    (clients : List Client) (R f : String) (acc : InvoiceStats)
    (inv : Invoice) :
    (invoiceStatsStep rates clients R f acc inv).total_amount =
      if inv.entriesFetchOk then
        acc.total_amount + invoiceConverted rates clients R inv
      else acc.total_amount := by
  unfold invoiceStatsStep
  split_ifs <;> rfl

/-- `paid_amount` after one step, independent of the status filter. -/
lemma invoiceStatsStep_paid_amount (rates : List (String × ℚ))
    (clients : List Client) (R f : String) (acc : InvoiceStats)
    (inv : Invoice) :
    (invoiceStatsStep rates clients R f acc inv).paid_amount =
      if inv.entriesFetchOk then
        if inv.status = "paid" then
          acc.paid_amount + invoiceConverted rates clients R inv
        else acc.paid_amount
      else acc.paid_amount := by
  unfold invoiceStatsStep
  split_ifs <;> rfl

/-- `unpaid_amount` after one step, independent of the status filter. -/
lemma invoiceStatsStep_unpaid_amount (rates : List (String × ℚ))
    (clients : List Client) (R f : String) (acc : InvoiceStats)
    (inv : Invoice) :
    (invoiceStatsStep rates clients R f acc inv).unpaid_amount =
      if inv.entriesFetchOk then
        if inv.status = "paid" then acc.unpaid_amount
        else if inv.status = "sent" ∨ inv.status = "overdue" then
          acc.unpaid_amount + invoiceConverted rates clients R inv
        else acc.unpaid_amount
      else acc.unpaid_amount := by
  unfold invoiceStatsStep
  split_ifs <;> rfl

/-- Folding the invoice loop with two different status filters from
states agreeing on the three totals keeps the three totals equal. -/
lemma invoiceStats_fold_totals (rates : List (String × ℚ))
    (clients : List Client) (R f1 f2 : String) :
    ∀ (invoices : List Invoice) (a b : InvoiceStats),
      a.total_amount = b.total_amount →
      a.paid_amount = b.paid_amount →
      a.unpaid_amount = b.unpaid_amount →
      ((invoices.foldl (invoiceStatsStep rates clients R f1)
          a).total_amount =
        (invoices.foldl (invoiceStatsStep rates clients R f2)
          b).total_amount)
      ∧ ((invoices.foldl (invoiceStatsStep rates clients R f1)
          a).paid_amount =
        (invoices.foldl (invoiceStatsStep rates clients R f2)
          b).paid_amount)
      ∧ ((invoices.foldl (invoiceStatsStep rates clients R f1)
          a).unpaid_amount =
        (invoices.foldl (invoiceStatsStep rates clients R f2)
          b).unpaid_amount)
  | [], _, _, h1, h2, h3 => ⟨h1, h2, h3⟩
  | inv :: rest, a, b, h1, h2, h3 => by
    rw [List.foldl_cons, List.foldl_cons]
    apply invoiceStats_fold_totals rates clients R f1 f2 rest
    · rw [invoiceStatsStep_total_amount, invoiceStatsStep_total_amount,
        h1]
    · rw [invoiceStatsStep_paid_amount, invoiceStatsStep_paid_amount,
        h2]
    · rw [invoiceStatsStep_unpaid_amount,
        invoiceStatsStep_unpaid_amount, h3]

end InvoiceStatsLemmas

section InvoiceStatsClaims

/-- C9: for every fixed set of invoices, clients, and stored rates, the
`total_amount`, `paid_amount` and `unpaid_amount` of `GetInvoiceStats`
are identical for every value of the status filter: the totals are
accumulated over all invoices before the filter is applied, so the
filter influences only the returned invoice list (and its count). -/
theorem invoiceStats_filter_noninterference (db : Db)
    (clients : List Client) (R : String) (invoices : List Invoice)
    (f1 f2 : String) :
    ((GetInvoiceStats db clients R f1 invoices).total_amount =
      (GetInvoiceStats db clients R f2 invoices).total_amount)
    ∧ ((GetInvoiceStats db clients R f1 invoices).paid_amount =
      (GetInvoiceStats db clients R f2 invoices).paid_amount)
    ∧ ((GetInvoiceStats db clients R f1 invoices).unpaid_amount =
      (GetInvoiceStats db clients R f2 invoices).unpaid_amount) :=
  invoiceStats_fold_totals (conversionRates db clients R) clients R
    f1 f2 invoices ⟨[], 0, 0, 0, 0⟩ ⟨[], 0, 0, 0, 0⟩ rfl rfl rfl

end InvoiceStatsClaims

section DashboardDefs

/-- The date filter of `GetDashboardStats` (part_003 lines 122–128):
an entry is kept when it is not before the `from` bound and not after
the `to` bound. -/
def passesDateFilter (fromDate toDate : Option ℤ) (d : ℤ) : Bool :=
  (match fromDate with
   | some f => decide (f ≤ d)
   | none => true) &&
  (match toDate with
   | some t => decide (d ≤ t)
   | none => true)

/-- The hours/revenue loop of `StatsHandler.GetDashboardStats`
(part_003 lines 97–149), returning (total_hours, total_revenue): each
date-admitted entry adds its hours; revenue is added only when the
entry's client exists, converted through the cached rate when the
client's currency differs from the user's. -/
def GetDashboardStats (db : Db) (clients : List Client) (R : String)
    (fromDate toDate : Option ℤ) (entries : List TimeEntry) : ℚ × ℚ :=
  let rates := conversionRates db clients R
  entries.foldl (fun acc e =>
    if passesDateFilter fromDate toDate e.date then
      let acc1 := (acc.1 + e.hours, acc.2)
      match lookupClient clients e.clientId with
      | some cl =>
        let entryAmount := e.hours * cl.hourlyRate
        if cl.currency ≠ R then
          match mapLookup rates cl.currency with
          | some rate => (acc1.1, acc1.2 + entryAmount * rate)
          | none => (acc1.1, acc1.2 + entryAmount)
        else (acc1.1, acc1.2 + entryAmount)
      | none => acc1
    else acc) (0, 0)

end DashboardDefs

section DashboardLemmas

/-- A client id matching no client resolves to no client. -/
lemma lookupClient_eq_none (clients : List Client) (id : ℤ)
    (h : ∀ c ∈ clients, c.id ≠ id) :
    lookupClient clients id = none := by
  unfold lookupClient
  have hgen : ∀ (l : List Client) (acc : Option Client),
      (∀ c ∈ l, c.id ≠ id) →
      l.foldl (fun acc c => if c.id == id then some c else acc) acc =
        acc := by
    intro l
    induction l with
    | nil => intro acc _; rfl
    | cons hd tl ih =>
      intro acc hall
      rw [List.foldl_cons,
        if_neg (by simp [hall hd (List.mem_cons_self hd tl)])]
      exact ih acc (fun c hc => hall c (List.mem_cons_of_mem hd hc))
  exact hgen clients none h

end DashboardLemmas

section DashboardClaims

/-- C10: a time entry passing the date filter whose client id matches
none of the user's clients adds its hours to `total_hours` and nothing
to `total_revenue`: appending such an orphan entry grows the hours total
by its hours while the revenue total stays unchanged. -/
theorem dashboard_orphan_entry (db : Db) (clients : List Client)
    (R : String) (fromDate toDate : Option ℤ)
    (entries : List TimeEntry) (e : TimeEntry)
    (hpass : passesDateFilter fromDate toDate e.date = true)
    (horph : ∀ c ∈ clients, c.id ≠ e.clientId) :
    GetDashboardStats db clients R fromDate toDate (entries ++ [e]) =
      ((GetDashboardStats db clients R fromDate toDate entries).1 +
          e.hours,
        (GetDashboardStats db clients R fromDate toDate entries).2) := by
  unfold GetDashboardStats
  rw [List.foldl_append, List.foldl_cons, List.foldl_nil, hpass,
    if_pos rfl, lookupClient_eq_none clients e.clientId horph]

/-- C10 witness: over one EUR client, appending an entry for an unknown
client id (3 hours, in range) raises total hours from 2 to 5 and leaves
revenue at the lone known entry's converted value. -/
theorem dashboard_orphan_entry_witness :
    GetDashboardStats (tableDb scenarioTable) [⟨1, "EUR", 50⟩] "USD"
        (some 0) (some 10) ([⟨1, 5, 2⟩] ++ [⟨2, 5, 3⟩]) =
      ((GetDashboardStats (tableDb scenarioTable) [⟨1, "EUR", 50⟩] "USD"
          (some 0) (some 10) [⟨1, 5, 2⟩]).1 + 3,
        (GetDashboardStats (tableDb scenarioTable) [⟨1, "EUR", 50⟩] "USD"
          (some 0) (some 10) [⟨1, 5, 2⟩]).2) :=
  dashboard_orphan_entry (tableDb scenarioTable) [⟨1, "EUR", 50⟩] "USD"
    (some 0) (some 10) [⟨1, 5, 2⟩] ⟨2, 5, 3⟩ (by decide) (by decide)

end DashboardClaims

end Facturme
